import Mathlib

/-!
Verification of the Orkut community scraper (orkut_scraper.py).

The scraper walks an archived, paginated directory of community names:
it fetches a landing page, discovers index-letter entry points, follows
each entry point's pagination chain (bounded by a 50-page safety limit),
extracts community names via a three-strategy fallback extractor, merges
and deduplicates the results, and writes them sorted under a single
"Community Name" CSV header.

The embedding below models the Python source shallowly:
- a parsed HTML page (BeautifulSoup) is a `Page` of `Elem`s;
- the HTTP session is a function `String → Option Page` (`get_page`
  returns the parsed page on success, `none` on any request failure);
- Python strings are Lean `String`s; `str.strip`, `str.lower`, the `in`
  operator and `urllib.parse.urljoin` are modelled on the character
  lists (`pyStrip`, `pyLower`, `containsSub`, `urljoin`);
- Python's `list(set(xs))` produces the distinct elements of `xs` in an
  unspecified order; the canonical model `pyListSet` is `List.dedup`,
  and the order-independence of the final persisted output is itself a
  proved theorem (the `...With` definitions take the dedup choice as an
  explicit parameter for exactly that purpose);
- `sorted(xs)` on strings is lexicographic comparison of code points,
  modelled by `pyLeRel` / `List.insertionSort`;
- the `time.sleep` rate-limit calls and `print` progress reporting have
  no effect on the data flow and are not modelled, except that the
  "Failed to fetch the main page" report is recorded as a flag and the
  successfully fetched listing URLs of a traversal are recorded as a
  trace, so that observational claims about them can be stated.
-/

/-! ## Models of the string primitives used by the scraper -/

/-- Model of Python's `in` operator on strings, over character lists:
`containsSub pat l` holds iff `pat` occurs as a contiguous substring of `l`. -/
def containsSub (pat : List Char) : List Char → Bool
  | [] => pat.isEmpty
  | c :: t => pat.isPrefixOf (c :: t) || containsSub pat t

/-- Splits `l` at the first occurrence of `pat`, returning the part before
and the part after the occurrence, or `none` when `pat` does not occur. -/
def breakOnSub (pat : List Char) : List Char → Option (List Char × List Char)
  | [] => if pat.isEmpty then some ([], []) else none
  | c :: t =>
    if pat.isPrefixOf (c :: t) then some ([], (c :: t).drop pat.length)
    else match breakOnSub pat t with
      | some (pre, rest) => some (c :: pre, rest)
      | none => none

/-- Model of Python's `str.lower`: lower-case every character. -/
def pyLower (s : String) : String := ⟨s.data.map Char.toLower⟩

/-- Strips leading and trailing whitespace from a character list
(model of Python's `str.strip` and of BeautifulSoup's `strip=True`). -/
def stripChars (l : List Char) : List Char :=
  ((l.dropWhile Char.isWhitespace).reverse.dropWhile Char.isWhitespace).reverse

/-- Model of Python's `str.strip`. -/
def pyStrip (s : String) : String := ⟨stripChars s.data⟩

/-- Lexicographic comparison of character lists by code point
(model of Python's string `<=`, as used by `sorted`). -/
def strLeB : List Char → List Char → Bool
  | [], _ => true
  | _ :: _, [] => false
  | a :: as, b :: bs =>
    a.toNat < b.toNat || (a.toNat == b.toNat && strLeB as bs)

/-- Model of Python's `<=` on strings. -/
def pyLe (s t : String) : Bool := strLeB s.data t.data

/-- The ordering relation used to model Python's `sorted` on strings. -/
def pyLeRel (s t : String) : Prop := pyLe s t = true

instance : DecidableRel pyLeRel := fun s t => inferInstanceAs (Decidable (pyLe s t = true))

/-- Model of `urllib.parse.urljoin` (external collaborator), covering the
shapes of URL the scraper exercises: an `href` that already carries a
scheme is returned unchanged; a root-relative `href` is joined to the
origin of `base`; any other `href` is joined to the directory of `base`. -/
def urljoin (base href : String) : String :=
  if containsSub "://".data href.data then href
  else if "/".data.isPrefixOf href.data then
    match breakOnSub "://".data base.data with
    | none => href
    | some (pre, rest) =>
      ⟨pre ++ "://".data ++ rest.takeWhile (fun c => c != '/') ++ href.data⟩
  else
    match breakOnSub "://".data base.data with
    | none => base ++ href
    | some (pre, rest) =>
      let dir := (rest.reverse.dropWhile (fun c => c != '/')).reverse
      let dir := if dir.isEmpty then rest ++ ['/'] else dir
      ⟨pre ++ "://".data ++ dir ++ href.data⟩

/-! ## The page model

A `Page` is the result of parsing one fetched HTML document
(`BeautifulSoup(response.content, 'html.parser')`).  `elems` lists every
element of the document in document order; `listContainer` is the first
`div` of class `listCommunityContainer` (as returned by `soup.find`),
given by the list of its descendant elements in document order, or
`none` when the document has no such `div`; `indexContainer` is the
first `div` of class `indexLettersContainer`, likewise. -/

/-- One parsed HTML element: its tag name, its `class` attribute list, its
optional `href` and `title` attributes, and its visible text content
(as returned by `get_text()` without stripping). -/
structure Elem where
  tag : String
  classes : List String
  href : Option String
  title : Option String
  text : String
deriving DecidableEq

/-- A parsed HTML document (see the section comment above). -/
structure Page where
  elems : List Elem
  listContainer : Option (List Elem)
  indexContainer : Option (List Elem)
deriving DecidableEq

/-- `get_text(strip=True)` on an element. -/
def Elem.strippedText (e : Elem) : String := pyStrip e.text

/-! ## The extractor (`extract_communities_from_page`, source lines 47-91) -/

/-- Strategy 1 of the extractor: all anchors of class `typoSectionTitleFont`;
keep each stripped text that is non-empty and longer than 2 characters. -/
def strategy1 (soup : Page) : List String :=
  ((soup.elems.filter fun e =>
      e.tag == "a" && e.classes.contains "typoSectionTitleFont").map
    Elem.strippedText).filter fun name => name != "" && decide (2 < name.length)

/-- The exact-match navigation labels excluded by strategy 2. -/
def navLabels : List String := ["next >", "< previous", "first", "last"]

/-- Strategy 2 of the extractor: inside the first `div` of class
`listCommunityContainer`, all anchors except those of class
`paginationSeparator`; keep each stripped text that is non-empty, longer
than 2 characters, and not an exact navigation label. -/
def strategy2 (soup : Page) : List String :=
  match soup.listContainer with
  | none => []
  | some container =>
    ((container.filter fun e =>
        e.tag == "a" && !(e.classes.contains "paginationSeparator")).map
      Elem.strippedText).filter fun name =>
        name != "" && decide (2 < name.length) && !(navLabels.contains name)

/-- Strategy 3 of the extractor: the union, in selector order, of six
heuristic selectors (`a[href*="Community"]`, `a[href*="community"]`,
`.community-name`, `.community-title`, `a[title*="community"]`,
`a[title*="Community"]`); keep each stripped text that is non-empty and
longer than 2 characters. -/
def strategy3 (soup : Page) : List String :=
  let keep : String → Bool := fun name => name != "" && decide (2 < name.length)
  let sel : (Elem → Bool) → List String := fun cond =>
    ((soup.elems.filter cond).map Elem.strippedText).filter keep
  sel (fun e => e.tag == "a" &&
        (match e.href with | some h => containsSub "Community".data h.data | none => false))
    ++ sel (fun e => e.tag == "a" &&
        (match e.href with | some h => containsSub "community".data h.data | none => false))
    ++ sel (fun e => e.classes.contains "community-name")
    ++ sel (fun e => e.classes.contains "community-title")
    ++ sel (fun e => e.tag == "a" &&
        (match e.title with | some t => containsSub "community".data t.data | none => false))
    ++ sel (fun e => e.tag == "a" &&
        (match e.title with | some t => containsSub "Community".data t.data | none => false))

/-- The extractor before its final `list(set(...))`: strategies tried in
fixed priority order, each later strategy only when all earlier ones
produced nothing. -/
def extractRaw (soup : Page) : List String :=
  let communities := strategy1 soup
  let communities := if communities.isEmpty then strategy2 soup else communities
  let communities := if communities.isEmpty then strategy3 soup else communities
  communities

/-- Canonical model of Python's `list(set(xs))`: the distinct elements of
`xs`.  Python leaves the order unspecified; the `...With` definitions
below take this choice as a parameter, and the theorem for claim C10
proves the persisted output does not depend on it. -/
def pyListSet (xs : List String) : List String := xs.dedup

/-- `extract_communities_from_page` with an explicit choice `d` of
`list(set(...))` representative. -/
def extractWith (d : List String → List String) (soup : Page) : List String :=
  d (extractRaw soup)

/-- `extract_communities_from_page` (source lines 47-91). -/
def extract_communities_from_page (soup : Page) : List String :=
  extractWith pyListSet soup

/-! ## The link finder (source lines 93-120) -/

/-- `find_index_letter_links` (source lines 93-106): inside the first `div`
of class `indexLettersContainer`, every anchor of class `indexLetters`
that has an `href`, resolved against the base URL, in document order. -/
def find_index_letter_links (base : String) (soup : Page) : List String :=
  match soup.indexContainer with
  | none => []
  | some container =>
    ((container.filter fun e =>
        e.tag == "a" && e.classes.contains "indexLetters").filterMap
      (fun e => e.href)).map (urljoin base)

/-- `find_pagination_links` (source lines 108-120): every anchor of class
`paginationSeparator` that has an `href` and whose lower-cased text
contains `"next"`, resolved against the base URL, in document order. -/
def find_pagination_links (base : String) (soup : Page) : List String :=
  (soup.elems.filter fun e =>
      e.tag == "a" && e.classes.contains "paginationSeparator").filterMap
    fun e =>
      match e.href with
      | some h =>
        if containsSub "next".data (pyLower e.text).data then some (urljoin base h)
        else none
      | none => none

/-- The `findNextPage` operation of the spec: the first pagination link of
a listing page, as consumed at source line 143
(`next_links[0] if next_links else None`). -/
def findNextPage (base : String) (soup : Page) : Option String :=
  (find_pagination_links base soup).head?

/-! ## The letter traverser (`scrape_letter_page`, source lines 122-153) -/

/-- Result of traversing one entry point's pagination chain: the
accumulated community names, plus (instrumentation) the trace of URLs
that were successfully fetched and extracted, in order. -/
structure LetterResult where
  names : List String
  fetchedUrls : List String
deriving DecidableEq

/-- The `while current_url:` loop of `scrape_letter_page` (source lines
128-151), with an explicit `list(set(...))` choice `d`.  `pageNum` is the
source's `page_num`; the loop processes a page, increments `page_num`,
and stops when the counter exceeds 50, when no next link exists, or when
a fetch fails.  `remaining` is structural-recursion fuel only: calls
start it at 50, and since the loop recurses only while `page_num + 1 ≤ 50`
the fuel (which then satisfies `remaining ≥ 51 - page_num > 1`) is never
exhausted before the page-counter check stops the loop. -/
def scrapeLetterLoopWith (d : List String → List String) (fetch : String → Option Page)
    (base : String) :
    Nat → Nat → Option String → List String → List String → LetterResult
  | remaining, pageNum, currentUrl, acc, fetchedUrls =>
    match currentUrl with
    | none => { names := acc, fetchedUrls := fetchedUrls }
    | some url =>
      match fetch url with
      | none => { names := acc, fetchedUrls := fetchedUrls }
      | some soup =>
        let acc := acc ++ extractWith d soup
        let fetchedUrls := fetchedUrls ++ [url]
        let nextUrl := (find_pagination_links base soup).head?
        if pageNum + 1 > 50 then { names := acc, fetchedUrls := fetchedUrls }
        else
          match remaining with
          | 0 => { names := acc, fetchedUrls := fetchedUrls }
          | r + 1 => scrapeLetterLoopWith d fetch base r (pageNum + 1) nextUrl acc fetchedUrls

/-- `scrape_letter_page` (source lines 122-153) with an explicit
`list(set(...))` choice: start at the entry-point URL with `page_num = 1`
and an empty accumulator. -/
def scrape_letter_pageWith (d : List String → List String) (fetch : String → Option Page)
    (base letterUrl : String) : LetterResult :=
  scrapeLetterLoopWith d fetch base 50 1 (some letterUrl) [] []

/-- `scrape_letter_page` (source lines 122-153). -/
def scrape_letter_page (fetch : String → Option Page) (base letterUrl : String) :
    LetterResult :=
  scrape_letter_pageWith pyListSet fetch base letterUrl

/-! ## The crawl orchestrator (`scrape_communities`, source lines 155-195) -/

/-- Result of a whole run: the final `self.communities`, plus
(instrumentation) the number of `scrape_letter_page` invocations and
whether the "Failed to fetch the main page" report was emitted. -/
structure RunResult where
  communities : List String
  letterTraversals : Nat
  mainPageFailureReported : Bool
deriving DecidableEq

/-- `scrape_communities` (source lines 155-195) with an explicit
`list(set(...))` choice `d`: fetch the landing page (returning empty on
failure); find the index-letter entry points; when there are none,
extract directly from the landing page and stop; otherwise traverse each
entry point in order, concatenate the results, deduplicate globally, and
drop entries whose stripped length is at most 2. -/
def scrape_communitiesWith (d : List String → List String) (fetch : String → Option Page)
    (base : String) : RunResult :=
  match fetch base with
  | none =>
    { communities := [], letterTraversals := 0, mainPageFailureReported := true }
  | some soup =>
    let indexLinks := find_index_letter_links base soup
    if indexLinks.isEmpty then
      { communities := extractWith d soup, letterTraversals := 0,
        mainPageFailureReported := false }
    else
      let communities := indexLinks.foldl
        (fun acc link => acc ++ (scrape_letter_pageWith d fetch base link).names) []
      let communities := d communities
      let communities := communities.filter fun name => decide (2 < (pyStrip name).length)
      { communities := communities, letterTraversals := indexLinks.length,
        mainPageFailureReported := false }

/-- `scrape_communities` (source lines 155-195). -/
def scrape_communities (fetch : String → Option Page) (base : String) : RunResult :=
  scrape_communitiesWith pyListSet fetch base

/-- `save_to_csv` (source lines 197-203): the rows of the written CSV file,
one cell per row — the header `"Community Name"` followed by the
communities in sorted order. -/
def save_to_csv (communities : List String) : List String :=
  "Community Name" :: List.insertionSort pyLeRel communities

/-! ## Properties of the string models -/

lemma char_toNat_inj {a b : Char} (h : a.toNat = b.toNat) : a = b := by
  cases a with
  | mk av avalid =>
    cases b with
    | mk bv bvalid =>
      simp only [Char.toNat] at h
      congr 1
      exact UInt32.toNat.inj h

lemma string_data_inj {s t : String} (h : s.data = t.data) : s = t := by
  cases s
  cases t
  simpa using congrArg String.mk h

lemma dropWhile_head_false {α : Type} (p : α → Bool) :
    ∀ (l : List α) (a : α) (t : List α), l.dropWhile p = a :: t → p a = false := by
  intro l
  induction l with
  | nil => intro a t h; simp at h
  | cons c cs ih =>
    intro a t h
    rw [List.dropWhile_cons] at h
    cases hc : p c with
    | true => rw [hc] at h; simp at h; exact ih a t h
    | false => rw [hc] at h; simp at h; rw [← h.1]; exact hc

lemma dropWhile_idem {α : Type} (p : α → Bool) (l : List α) :
    (l.dropWhile p).dropWhile p = l.dropWhile p := by
  cases h : l.dropWhile p with
  | nil => simp
  | cons a t => rw [List.dropWhile_cons, dropWhile_head_false p l a t h]; simp

lemma dropWhile_append {α : Type} (p : α → Bool) (l1 l2 : List α) :
    (l1 ++ l2).dropWhile p =
      if (l1.dropWhile p).isEmpty then l2.dropWhile p else l1.dropWhile p ++ l2 := by
  induction l1 with
  | nil => simp
  | cons c cs ih =>
    rw [List.cons_append, List.dropWhile_cons, List.dropWhile_cons]
    cases hc : p c with
    | true => simpa using ih
    | false => simp

/-- The result of `stripChars` has no leading whitespace left to strip. -/
lemma stripChars_dropWhile (l : List Char) :
    (stripChars l).dropWhile Char.isWhitespace = stripChars l := by
  unfold stripChars
  cases h : l.dropWhile Char.isWhitespace with
  | nil => simp
  | cons a t =>
    have ha : Char.isWhitespace a = false := dropWhile_head_false _ l a t h
    rw [List.reverse_cons, dropWhile_append]
    cases hd : t.reverse.dropWhile Char.isWhitespace with
    | nil => simp [List.dropWhile_cons, ha]
    | cons b u => simp [List.dropWhile_cons, ha]

/-- Stripping is idempotent. -/
lemma stripChars_idem (l : List Char) : stripChars (stripChars l) = stripChars l := by
  have h1 := stripChars_dropWhile l
  show (((stripChars l).dropWhile Char.isWhitespace).reverse.dropWhile
      Char.isWhitespace).reverse = stripChars l
  rw [h1]
  conv_lhs => rw [stripChars, List.reverse_reverse]
  rw [dropWhile_idem]
  rfl

/-- Python's `strip` model is idempotent: a name that was produced by
stripping strips to itself. -/
lemma pyStrip_idem (s : String) : pyStrip (pyStrip s) = pyStrip s := by
  unfold pyStrip
  exact congrArg String.mk (stripChars_idem s.data)

lemma strLeB_total : ∀ as bs : List Char, strLeB as bs = true ∨ strLeB bs as = true := by
  intro as
  induction as with
  | nil => intro bs; left; rfl
  | cons a at' ih =>
    intro bs
    cases bs with
    | nil => right; rfl
    | cons b bt =>
      rcases Nat.lt_trichotomy a.toNat b.toNat with h | h | h
      · left; simp [strLeB, h]
      · rcases ih bt with h2 | h2
        · left; simp [strLeB, h, h2]
        · right; simp [strLeB, ← h, h2]
      · right; simp [strLeB, h]

lemma strLeB_trans :
    ∀ as bs cs : List Char, strLeB as bs = true → strLeB bs cs = true →
      strLeB as cs = true := by
  intro as
  induction as with
  | nil => intro bs cs _ _; rfl
  | cons a at' ih =>
    intro bs cs h1 h2
    cases bs with
    | nil => simp [strLeB] at h1
    | cons b bt =>
      cases cs with
      | nil => simp [strLeB] at h2
      | cons c ct =>
        simp only [strLeB, Bool.or_eq_true, Bool.and_eq_true, decide_eq_true_eq,
          Nat.beq_eq_true_eq] at h1 h2 ⊢
        rcases h1 with h1 | ⟨h1e, h1r⟩
        · rcases h2 with h2 | ⟨h2e, h2r⟩
          · left; omega
          · left; omega
        · rcases h2 with h2 | ⟨h2e, h2r⟩
          · left; omega
          · right; exact ⟨by omega, ih bt ct h1r h2r⟩

lemma strLeB_antisymm :
    ∀ as bs : List Char, strLeB as bs = true → strLeB bs as = true → as = bs := by
  intro as
  induction as with
  | nil =>
    intro bs _ h2
    cases bs with
    | nil => rfl
    | cons b bt => simp [strLeB] at h2
  | cons a at' ih =>
    intro bs h1 h2
    cases bs with
    | nil => simp [strLeB] at h1
    | cons b bt =>
      simp only [strLeB, Bool.or_eq_true, Bool.and_eq_true, decide_eq_true_eq,
        Nat.beq_eq_true_eq] at h1 h2
      rcases h1 with h1 | ⟨h1e, h1r⟩
      · rcases h2 with h2 | ⟨h2e, h2r⟩
        · omega
        · omega
      · rcases h2 with h2 | ⟨h2e, h2r⟩
        · omega
        · rw [char_toNat_inj h1e, ih bt h1r h2r]

instance : IsTotal String pyLeRel :=
  ⟨fun s t => strLeB_total s.data t.data⟩

instance : IsTrans String pyLeRel :=
  ⟨fun a b c => strLeB_trans a.data b.data c.data⟩

instance : IsAntisymm String pyLeRel :=
  ⟨fun a b h1 h2 => string_data_inj (strLeB_antisymm a.data b.data h1 h2)⟩

/-! ## Properties of the extractor -/

/-- Names selected by a map-then-keep extraction block are stripped strings
of length at least 3, provided the keep predicate enforces the length. -/
lemma keep_mem {es : List Elem} {cond : Elem → Bool} {keep : String → Bool} {name : String}
    (hkeep : ∀ n, keep n = true → 2 < n.length)
    (h : name ∈ ((es.filter cond).map Elem.strippedText).filter keep) :
    pyStrip name = name ∧ 2 < name.length := by
  rw [List.mem_filter] at h
  obtain ⟨hm, hk⟩ := h
  obtain ⟨e, _, rfl⟩ := List.mem_map.mp hm
  exact ⟨pyStrip_idem e.text, hkeep _ hk⟩

lemma strategy1_mem {soup : Page} {name : String} (h : name ∈ strategy1 soup) :
    pyStrip name = name ∧ 2 < name.length := by
  refine keep_mem ?_ h
  intro n hn
  simp only [Bool.and_eq_true, decide_eq_true_eq] at hn
  exact hn.2

lemma strategy2_mem {soup : Page} {name : String} (h : name ∈ strategy2 soup) :
    pyStrip name = name ∧ 2 < name.length := by
  unfold strategy2 at h
  cases hc : soup.listContainer with
  | none => rw [hc] at h; simp at h
  | some container =>
    rw [hc] at h
    refine keep_mem ?_ h
    intro n hn
    simp only [Bool.and_eq_true, decide_eq_true_eq] at hn
    exact hn.1.2

lemma strategy3_mem {soup : Page} {name : String} (h : name ∈ strategy3 soup) :
    pyStrip name = name ∧ 2 < name.length := by
  simp only [strategy3, List.mem_append] at h
  have hkeep : ∀ n : String, (n != "" && decide (2 < n.length)) = true → 2 < n.length := by
    intro n hn
    simp only [Bool.and_eq_true, decide_eq_true_eq] at hn
    exact hn.2
  rcases h with ((((h | h) | h) | h) | h) | h <;> exact keep_mem hkeep h

/-- Every name the extractor emits (before deduplication) is already
stripped and longer than 2 characters. -/
lemma extractRaw_mem {soup : Page} {name : String} (h : name ∈ extractRaw soup) :
    pyStrip name = name ∧ 2 < name.length := by
  simp only [extractRaw] at h
  split_ifs at h
  all_goals first
    | exact strategy1_mem h
    | exact strategy2_mem h
    | exact strategy3_mem h

/-! ## Claim C3: extraction priority -/

/-- C3: on every parsed page where strategy 1 (anchors of the
`typoSectionTitleFont` class) yields a non-empty list, the extractor
returns exactly strategy 1's deduplicated results — later strategies'
matches never appear, whatever the page's container or heuristic
selectors would have matched. -/
theorem extract_priority_strategy1 (soup : Page) (h : strategy1 soup ≠ []) :
    extract_communities_from_page soup = (strategy1 soup).dedup ∧
    ∀ name ∈ extract_communities_from_page soup, name ∈ strategy1 soup := by
  have hne : (strategy1 soup).isEmpty = false := by
    cases hs : strategy1 soup with
    | nil => exact absurd hs h
    | cons a t => rfl
  have hext : extract_communities_from_page soup = (strategy1 soup).dedup := by
    simp only [extract_communities_from_page, extractWith, extractRaw, pyListSet, hne,
      Bool.false_eq_true, if_false]
  refine ⟨hext, ?_⟩
  intro name hn
  rw [hext] at hn
  exact List.mem_dedup.mp hn

/-- A page matching all three extraction strategies at once: the first
anchor matches strategy 1 and strategy 3, the second anchor matches
strategy 3, and the listing container holds a strategy 2 match. -/
def prioPage : Page :=
  { elems :=
      [ { tag := "a", classes := ["typoSectionTitleFont"], href := some "/Community/1",
          title := some "community one", text := "Alpha One" },
        { tag := "a", classes := [], href := some "/Community/2",
          title := some "community two", text := "Heuristic Name" } ],
    listContainer := some
      [ { tag := "a", classes := [], href := some "/c3", title := none,
          text := "Container Name" } ],
    indexContainer := none }

/-- Witness for C3 at a concrete page on which all three strategies match. -/
theorem extract_priority_strategy1_witness :
    strategy1 prioPage ≠ [] ∧ strategy2 prioPage ≠ [] ∧ strategy3 prioPage ≠ [] ∧
    (extract_communities_from_page prioPage = (strategy1 prioPage).dedup ∧
      ∀ name ∈ extract_communities_from_page prioPage, name ∈ strategy1 prioPage) :=
  ⟨by decide, by decide, by decide, extract_priority_strategy1 prioPage (by decide)⟩

/-! ## Claim C5: the end-to-end example -/

/-- The base URL of the end-to-end example. -/
def exBase : String := "http://o.com/"

/-- The landing page of the end-to-end example: an index-letters container
linking the two entry points. -/
def exLanding : Page :=
  { elems := [],
    listContainer := none,
    indexContainer := some
      [ { tag := "a", classes := ["indexLetters"], href := some "/l-a.html",
          title := none, text := "a" },
        { tag := "a", classes := ["indexLetters"], href := some "/l-b.html",
          title := none, text := "b" } ] }

/-- First listing page of entry point `a`: names "Alpha Club" and
"Ants United", with a next link to page 2. -/
def exPageA1 : Page :=
  { elems :=
      [ { tag := "a", classes := ["typoSectionTitleFont"], href := some "/c/1",
          title := none, text := "Alpha Club" },
        { tag := "a", classes := ["typoSectionTitleFont"], href := some "/c/2",
          title := none, text := "Ants United" },
        { tag := "a", classes := ["paginationSeparator"], href := some "/l-a.html?page=2",
          title := none, text := "next >" } ],
    listContainer := none, indexContainer := none }

/-- Second listing page of entry point `a`: names "Ants United" (again) and
"Archive Fans", no next link. -/
def exPageA2 : Page :=
  { elems :=
      [ { tag := "a", classes := ["typoSectionTitleFont"], href := some "/c/2",
          title := none, text := "Ants United" },
        { tag := "a", classes := ["typoSectionTitleFont"], href := some "/c/3",
          title := none, text := "Archive Fans" } ],
    listContainer := none, indexContainer := none }

/-- The only listing page of entry point `b`: name "Beta Group". -/
def exPageB : Page :=
  { elems :=
      [ { tag := "a", classes := ["typoSectionTitleFont"], href := some "/c/4",
          title := none, text := "Beta Group" } ],
    listContainer := none, indexContainer := none }

/-- The web of the end-to-end example. -/
def exFetch : String → Option Page := fun url =>
  if url == exBase then some exLanding
  else if url == "http://o.com/l-a.html" then some exPageA1
  else if url == "http://o.com/l-a.html?page=2" then some exPageA2
  else if url == "http://o.com/l-b.html" then some exPageB
  else none

/-- C5: on the end-to-end example web — a landing page with entry points
`/l-a.html` and `/l-b.html`, where `/l-a.html` yields "Alpha Club" and
"Ants United" with a next link to `/l-a.html?page=2`, that page yields
"Ants United" and "Archive Fans" with no next link, and `/l-b.html`
yields "Beta Group" — the orchestrated run persists exactly the header
followed by the four names in sorted order. -/
theorem end_to_end_example_rows :
    save_to_csv (scrape_communities exFetch exBase).communities
      = ["Community Name", "Alpha Club", "Ants United", "Archive Fans", "Beta Group"] := by
  decide

/-! ## Claim C6: fallback to direct extraction -/

/-- C6: whenever the landing page parses but yields no index-letter entry
points, the run's result is exactly the direct extraction from the
landing page, and no Letter Traverser invocation is performed. -/
theorem orchestrator_fallback_direct_extraction (fetch : String → Option Page)
    (base : String) (soup : Page)
    (hfetch : fetch base = some soup)
    (hempty : find_index_letter_links base soup = []) :
    (scrape_communities fetch base).communities = extract_communities_from_page soup ∧
    (scrape_communities fetch base).letterTraversals = 0 := by
  unfold scrape_communities scrape_communitiesWith
  rw [hfetch]
  simp [hempty, extract_communities_from_page]

/-- A landing page with no index-letters container but direct extractable
names. -/
def fallbackPage : Page :=
  { elems := [ { tag := "a", classes := ["typoSectionTitleFont"], href := some "/c/9",
                 title := none, text := "Direct Name" } ],
    listContainer := none, indexContainer := none }

/-- The web of the C6 witness: only the landing page exists. -/
def fallbackFetch : String → Option Page := fun url =>
  if url == "http://f.com/" then some fallbackPage else none

/-- Witness for C6 at a concrete landing page without entry points,
checking additionally that the fallback result is non-empty. -/
theorem orchestrator_fallback_direct_extraction_witness :
    fallbackFetch "http://f.com/" = some fallbackPage ∧
    find_index_letter_links "http://f.com/" fallbackPage = [] ∧
    extract_communities_from_page fallbackPage ≠ [] ∧
    ((scrape_communities fallbackFetch "http://f.com/").communities
        = extract_communities_from_page fallbackPage ∧
      (scrape_communities fallbackFetch "http://f.com/").letterTraversals = 0) :=
  ⟨by decide, by decide, by decide,
    orchestrator_fallback_direct_extraction fallbackFetch "http://f.com/" fallbackPage
      (by decide) (by decide)⟩

/-! ## Claim C7: landing-page fetch failure -/

/-- C7: whenever the landing-page fetch fails, the run terminates cleanly
with an empty result set and zero traversals, after emitting the
failure report. -/
theorem landing_fetch_failure_clean_abort (fetch : String → Option Page) (base : String)
    (h : fetch base = none) :
    (scrape_communities fetch base).communities = [] ∧
    (scrape_communities fetch base).letterTraversals = 0 ∧
    (scrape_communities fetch base).mainPageFailureReported = true := by
  unfold scrape_communities scrape_communitiesWith
  rw [h]
  exact ⟨rfl, rfl, rfl⟩

/-- Witness for C7 on the web where every fetch fails. -/
theorem landing_fetch_failure_clean_abort_witness :
    ((fun _ : String => (none : Option Page)) "http://x/") = none ∧
    ((scrape_communities (fun _ => none) "http://x/").communities = [] ∧
      (scrape_communities (fun _ => none) "http://x/").letterTraversals = 0 ∧
      (scrape_communities (fun _ => none) "http://x/").mainPageFailureReported = true) :=
  ⟨rfl, landing_fetch_failure_clean_abort (fun _ => none) "http://x/" rfl⟩

/-! ## Claim C1: the 50-page safety bound -/

/-- Invariant of the traversal loop on a web where every fetch succeeds and
every page advertises a next link: starting at `page_num = pageNum ≤ 50`
with enough fuel, the loop processes exactly `51 - pageNum` further pages. -/
lemma scrapeLetterLoop_fetched_length (d : List String → List String)
    (fetch : String → Option Page) (base : String)
    (hFetch : ∀ u, (fetch u).isSome = true)
    (hNext : ∀ u soup, fetch u = some soup → find_pagination_links base soup ≠ []) :
    ∀ (remaining pageNum : Nat) (url : String) (acc fetchedUrls : List String),
      1 ≤ pageNum → pageNum ≤ 50 → 50 - pageNum ≤ remaining →
      (scrapeLetterLoopWith d fetch base remaining pageNum (some url) acc
          fetchedUrls).fetchedUrls.length = fetchedUrls.length + (51 - pageNum) := by
  intro remaining
  induction remaining with
  | zero =>
    intro pageNum url acc f h1 h50 hrem
    have hp : pageNum = 50 := by omega
    subst hp
    obtain ⟨soup, hs⟩ := Option.isSome_iff_exists.mp (hFetch url)
    simp [scrapeLetterLoopWith, hs]
  | succ r ih =>
    intro pageNum url acc f h1 h50 hrem
    obtain ⟨soup, hs⟩ := Option.isSome_iff_exists.mp (hFetch url)
    by_cases hpn : pageNum + 1 > 50
    · have hp : pageNum = 50 := by omega
      subst hp
      simp [scrapeLetterLoopWith, hs]
    · obtain ⟨nu, nt, hnu⟩ := List.exists_cons_of_ne_nil (hNext url soup hs)
      rw [scrapeLetterLoopWith]
      simp only [hs, hnu, List.head?_cons, if_neg hpn]
      rw [ih (pageNum + 1) nu (acc ++ extractWith d soup) (f ++ [url])
        (by omega) (by omega) (by omega)]
      simp only [List.length_append, List.length_cons, List.length_nil]
      omega

/-- C1: on every web where each fetch succeeds and each fetched page
advertises a next-page link, the Letter Traverser processes exactly 50
pages and stops — the page-count safety bound overrides the ever-present
next link (and the traversal, being a total function, always
terminates). -/
theorem scrape_letter_page_stops_at_fifty (fetch : String → Option Page)
    (base letterUrl : String)
    (hFetch : ∀ u, (fetch u).isSome = true)
    (hNext : ∀ u soup, fetch u = some soup → find_pagination_links base soup ≠ []) :
    (scrape_letter_page fetch base letterUrl).fetchedUrls.length = 50 := by
  have h := scrapeLetterLoop_fetched_length pyListSet fetch base hFetch hNext 50 1
    letterUrl [] [] (by omega) (by omega) (by omega)
  simpa [scrape_letter_page, scrape_letter_pageWith] using h

/-- A listing page that always advertises a next link, producing an
unbounded pagination chain. -/
def loopPage : Page :=
  { elems := [ { tag := "a", classes := ["paginationSeparator"], href := some "http://x/p",
                 title := none, text := "next >" } ],
    listContainer := none, indexContainer := none }

/-- The web of the C1 witness: every URL resolves to `loopPage`. -/
def loopFetch : String → Option Page := fun _ => some loopPage

/-- Witness for C1 on the synthetic unbounded chain where every page has a
next link. -/
theorem scrape_letter_page_stops_at_fifty_witness :
    (∀ u, (loopFetch u).isSome = true) ∧
    (scrape_letter_page loopFetch "http://x/" "http://x/p").fetchedUrls.length = 50 :=
  ⟨fun _ => rfl,
    scrape_letter_page_stops_at_fifty loopFetch "http://x/" "http://x/p" (fun _ => rfl)
      (fun u soup h => by
        injection h with h2
        rw [← h2]
        decide)⟩

/-! ## Claim C4: partial-failure preservation -/

/-- Invariant of the traversal loop along a pagination chain whose pages
`0 .. k - 1` fetch successfully, each linking to the next (chain
position `i` lives at `page_num = i + 1`), and whose page `k` fails to
fetch: entered at position `i ≤ k` with enough fuel, the loop returns
the accumulators extended by exactly the extractions and URLs of pages
`i .. k - 1`. -/
lemma scrapeLetterLoop_partial (d : List String → List String)
    (fetch : String → Option Page) (base : String)
    (urls : Nat → String) (pages : Nat → Page) (k : Nat)
    (hsucc : ∀ i, i < k → fetch (urls i) = some (pages i))
    (hnext : ∀ i, i + 1 ≤ k →
      (find_pagination_links base (pages i)).head? = some (urls (i + 1)))
    (hfail : fetch (urls k) = none)
    (hk : k ≤ 49) :
    ∀ (remaining i : Nat) (acc fetchedUrls : List String),
      i ≤ k → 50 - (i + 1) ≤ remaining →
      scrapeLetterLoopWith d fetch base remaining (i + 1) (some (urls i)) acc fetchedUrls
        = { names := acc ++ (List.range' i (k - i)).flatMap
              (fun j => extractWith d (pages j)),
            fetchedUrls := fetchedUrls ++ (List.range' i (k - i)).map urls } := by
  intro remaining
  induction remaining with
  | zero =>
    intro i acc f hik hrem
    have hi : i = k := by omega
    subst hi
    rw [scrapeLetterLoopWith]
    simp [hfail, Nat.sub_self]
  | succ r ih =>
    intro i acc f hik hrem
    by_cases hikeq : i = k
    · subst hikeq
      rw [scrapeLetterLoopWith]
      simp [hfail, Nat.sub_self]
    · have hilt : i < k := by omega
      rw [scrapeLetterLoopWith]
      simp only [hsucc i hilt, hnext i (by omega), if_neg (by omega : ¬ i + 1 + 1 > 50)]
      rw [ih (i + 1) (acc ++ extractWith d (pages i)) (f ++ [urls i]) (by omega) (by omega)]
      have hrange : List.range' i (k - i) = i :: List.range' (i + 1) (k - (i + 1)) := by
        have hsub : k - i = (k - (i + 1)) + 1 := by omega
        rw [hsub, List.range'_succ]
      rw [hrange]
      simp [List.flatMap_cons, List.append_assoc]

/-- C4: on every pagination chain in which some page's fetch fails — the
first `k` pages (any `k ≤ 49`) fetch successfully, each linking to the
next, and the following page fails — the Letter Traverser stops at the
failure and returns exactly the names extracted from the `k` pages
processed before the failing one, in order: a broken page neither
raises an error (the traversal is total) nor discards prior pages'
results.  (A failure at chain depth 50 or beyond is never queried,
because the page-count safety bound of C1 stops the traversal first.) -/
theorem letter_traversal_partial_failure (fetch : String → Option Page)
    (base : String) (urls : Nat → String) (pages : Nat → Page) (k : Nat)
    (hk : k ≤ 49)
    (hsucc : ∀ i, i < k → fetch (urls i) = some (pages i))
    (hnext : ∀ i, i + 1 ≤ k → findNextPage base (pages i) = some (urls (i + 1)))
    (hfail : fetch (urls k) = none) :
    (scrape_letter_page fetch base (urls 0)).names
      = (List.range k).flatMap (fun i => extract_communities_from_page (pages i)) ∧
    (scrape_letter_page fetch base (urls 0)).fetchedUrls = (List.range k).map urls := by
  unfold findNextPage at hnext
  have h := scrapeLetterLoop_partial pyListSet fetch base urls pages k hsucc hnext hfail hk
    50 0 [] [] (by omega) (by omega)
  simp only [Nat.zero_add, Nat.sub_zero, List.nil_append] at h
  refine ⟨?_, ?_⟩
  · show (scrapeLetterLoopWith pyListSet fetch base 50 1 (some (urls 0)) [] []).names
      = (List.range k).flatMap fun i => extract_communities_from_page (pages i)
    rw [h, List.range_eq_range']
    rfl
  · show (scrapeLetterLoopWith pyListSet fetch base 50 1 (some (urls 0)) [] []).fetchedUrls
      = (List.range k).map urls
    rw [h, List.range_eq_range']

/-! ## Claim C2: invariants of the persisted output -/

/-- The final communities list of any run is duplicate-free. -/
lemma scrape_communities_nodup (fetch : String → Option Page) (base : String) :
    (scrape_communities fetch base).communities.Nodup := by
  unfold scrape_communities scrape_communitiesWith
  cases hf : fetch base with
  | none => simp
  | some soup =>
    by_cases hidx : (find_index_letter_links base soup).isEmpty = true
    · simp only [hidx, if_true]
      exact List.nodup_dedup _
    · simp only [hidx, Bool.false_eq_true, if_false]
      exact (List.nodup_dedup _).filter _

/-- Every community in any run's final list strips to length at least 3. -/
lemma scrape_communities_strip_length (fetch : String → Option Page) (base : String) :
    ∀ name ∈ (scrape_communities fetch base).communities, 2 < (pyStrip name).length := by
  unfold scrape_communities scrape_communitiesWith
  cases hf : fetch base with
  | none => simp
  | some soup =>
    by_cases hidx : (find_index_letter_links base soup).isEmpty = true
    · simp only [hidx, if_true]
      intro name hn
      have hm : name ∈ extractRaw soup := List.mem_dedup.mp hn
      obtain ⟨hstrip, hlen⟩ := extractRaw_mem hm
      rw [hstrip]
      exact hlen
    · simp only [hidx, Bool.false_eq_true, if_false]
      intro name hn
      rw [List.mem_filter] at hn
      simpa using hn.2

/-- C2: on every run that reaches the output step, the persisted sequence
is the single header row "Community Name" followed by data rows that are
pairwise distinct, each of trimmed length at least 3, in
lexicographically sorted order. -/
theorem csv_output_header_nodup_trimmed_sorted (fetch : String → Option Page)
    (base : String) :
    (save_to_csv (scrape_communities fetch base).communities).head?
        = some "Community Name" ∧
    (save_to_csv (scrape_communities fetch base).communities).tail.Nodup ∧
    (∀ row ∈ (save_to_csv (scrape_communities fetch base).communities).tail,
        3 ≤ (pyStrip row).length) ∧
    List.Sorted pyLeRel (save_to_csv (scrape_communities fetch base).communities).tail := by
  refine ⟨rfl, ?_, ?_, ?_⟩
  · show (List.insertionSort pyLeRel (scrape_communities fetch base).communities).Nodup
    exact (List.perm_insertionSort pyLeRel _).nodup_iff.mpr
      (scrape_communities_nodup fetch base)
  · show ∀ row ∈ List.insertionSort pyLeRel (scrape_communities fetch base).communities,
      3 ≤ (pyStrip row).length
    intro row hr
    exact scrape_communities_strip_length fetch base row
      ((List.perm_insertionSort pyLeRel _).mem_iff.mp hr)
  · show List.Sorted pyLeRel
      (List.insertionSort pyLeRel (scrape_communities fetch base).communities)
    exact List.sorted_insertionSort pyLeRel _

/-! ## Claim C8: entry-point discovery -/

/-- Modelled from the spec, claim C8 as literally stated: "within the
index-letters container, every anchor is an entry point; URL is resolved
to an absolute URL against the crawl's base URL", in document order, and
the empty sequence when the container is absent.  (An anchor without an
`href` contributes through its — then missing — `href`, hence the
`filterMap`; the counterexample below does not depend on that reading.) -/
def findEntryPointsClaim (base : String) (soup : Page) : List String :=
  match soup.indexContainer with
  | none => []
  | some container =>
    ((container.filter fun e => e.tag == "a").filterMap (fun e => e.href)).map (urljoin base)

/-- The amended C8 entry-point finder: within the index-letters container,
every anchor carrying the `indexLetters` marker class and possessing an
`href`, resolved against the base URL, in document order. -/
def findEntryPointsAmended (base : String) (soup : Page) : List String :=
  match soup.indexContainer with
  | none => []
  | some container =>
    ((container.filter fun e =>
        (e.tag == "a" && e.classes.contains "indexLetters") && (e.href).isSome).map
      (fun e => (e.href).getD "")).map (urljoin base)

/-- Filtering then keeping the `href`s equals restricting the filter to
elements that have an `href` and projecting it. -/
lemma filterMap_href_eq (es : List Elem) (P : Elem → Bool) :
    (es.filter P).filterMap (fun e => e.href)
      = ((es.filter fun e => P e && (e.href).isSome).map fun e => (e.href).getD "") := by
  induction es with
  | nil => rfl
  | cons e t ih =>
    by_cases hP : P e = true
    · cases hh : e.href with
      | none => simp [List.filter_cons, hP, hh, ih]
      | some h => simp [List.filter_cons, hP, hh, ih]
    · simp [List.filter_cons, hP, ih]

/-- A landing page whose index-letters container holds one anchor that has
an `href` but lacks the `indexLetters` marker class. -/
def unmarkedIndexPage : Page :=
  { elems := [],
    listContainer := none,
    indexContainer := some
      [ { tag := "a", classes := ["plainLink"], href := some "http://x/l-a.html",
          title := none, text := "A" } ] }

/-- Counterexample to C8 as stated: for an anchor inside the container that
lacks the marker class, the scraper returns no entry point, while the
claim demands one for every anchor in the container. -/
theorem find_index_letter_links_not_every_anchor :
    find_index_letter_links "http://x/" unmarkedIndexPage
      ≠ findEntryPointsClaim "http://x/" unmarkedIndexPage := by
  decide

/-- C8 (amended): the entry points are exactly the container's anchors that
carry the `indexLetters` marker class and an `href`, resolved against
the base URL, in document order — in particular a sub-sequence, in
document order, of the claim's every-anchor list — and the empty
sequence when the container is absent. -/
theorem find_index_letter_links_amended (base : String) (soup : Page) :
    find_index_letter_links base soup = findEntryPointsAmended base soup ∧
    (find_index_letter_links base soup).Sublist (findEntryPointsClaim base soup) := by
  constructor
  · unfold find_index_letter_links findEntryPointsAmended
    cases soup.indexContainer with
    | none => rfl
    | some container => simp only [filterMap_href_eq]
  · unfold find_index_letter_links findEntryPointsClaim
    cases hc : soup.indexContainer with
    | none => simp
    | some container =>
      apply List.Sublist.map
      apply List.Sublist.filterMap
      have hsplit : (container.filter fun e =>
            e.tag == "a" && e.classes.contains "indexLetters")
          = (container.filter fun e => e.tag == "a").filter
              (fun e => e.classes.contains "indexLetters") := by
        rw [List.filter_filter]
        apply List.filter_congr
        intro x _
        cases hx : x.tag == "a" <;> cases hy : x.classes.contains "indexLetters" <;>
          simp [hx, hy]
      rw [hsplit]
      exact List.filter_sublist _

/-! ## Claim C9: next-page discovery -/

/-- Modelled from the spec, claim C9 as literally stated: the first anchor
carrying the pagination-separator marker whose visible text contains
"next" case-insensitively, its URL resolved against the base URL, or
none when no such anchor exists. -/
def findNextPageClaim (base : String) (soup : Page) : Option String :=
  ((soup.elems.filter fun e =>
      (e.tag == "a" && e.classes.contains "paginationSeparator")
        && containsSub "next".data (pyLower e.text).data).head?).bind
    fun e => (e.href).map (urljoin base)

/-- The amended C9 next-page finder: the first anchor carrying the marker,
possessing an `href`, whose text contains "next" case-insensitively. -/
def findNextPageAmended (base : String) (soup : Page) : Option String :=
  ((soup.elems.filter fun e =>
      (e.tag == "a" && e.classes.contains "paginationSeparator")
        && ((e.href).isSome && containsSub "next".data (pyLower e.text).data)).head?).bind
    fun e => (e.href).map (urljoin base)

/-- The head of the scraper's pagination-link list is the first marked,
`href`-carrying, "next"-texted anchor's resolved URL. -/
lemma findNextPage_aux (base : String) :
    ∀ es : List Elem,
      ((es.filter fun e => e.tag == "a" && e.classes.contains "paginationSeparator").filterMap
        (fun e =>
          match e.href with
          | some h =>
            if containsSub "next".data (pyLower e.text).data then some (urljoin base h)
            else none
          | none => none)).head?
      = ((es.filter fun e =>
            (e.tag == "a" && e.classes.contains "paginationSeparator")
              && ((e.href).isSome
                && containsSub "next".data (pyLower e.text).data)).head?).bind
          (fun e => (e.href).map (urljoin base)) := by
  intro es
  induction es with
  | nil => rfl
  | cons e t ih =>
    by_cases h1 : e.tag = "a" ∧ "paginationSeparator" ∈ e.classes
    · cases hh : e.href with
      | none => simpa [List.filter_cons, h1, hh] using ih
      | some href =>
        by_cases h2 : containsSub "next".data (pyLower e.text).data = true
        · simp [List.filter_cons, h1, hh, h2]
        · simpa [List.filter_cons, h1, hh, h2] using ih
    · simpa [List.filter_cons, h1] using ih

/-- A listing page whose first marked next-anchor has no `href`, while a
later marked next-anchor has one. -/
def hrefLessNextPage : Page :=
  { elems :=
      [ { tag := "a", classes := ["paginationSeparator"], href := none,
          title := none, text := "next >" },
        { tag := "a", classes := ["paginationSeparator"], href := some "http://x/p2",
          title := none, text := "next page" } ],
    listContainer := none, indexContainer := none }

/-- Counterexample to C9 as stated: when the first marked "next" anchor has
no `href`, the scraper skips it and returns the second anchor's URL,
while the claim — bound to the first such anchor — yields no URL. -/
theorem findNextPage_not_first_marked_anchor :
    findNextPage "http://x/" hrefLessNextPage
      ≠ findNextPageClaim "http://x/" hrefLessNextPage := by
  decide

/-- C9 (amended): `findNextPage` returns the resolved absolute URL of the
first anchor that carries the pagination-separator marker, possesses an
`href`, and whose visible text contains "next" case-insensitively — and
none when no such anchor exists. -/
theorem findNextPage_amended_eq (base : String) (soup : Page) :
    findNextPage base soup = findNextPageAmended base soup := by
  unfold findNextPage find_pagination_links findNextPageAmended
  exact findNextPage_aux base soup.elems

/-! ## Claim C10: output independence of the set iteration order -/

/-- Two duplicate-free lists with the same elements sort to the same list. -/
lemma insertionSort_eq_of_nodup_toFinset {l1 l2 : List String}
    (h1 : l1.Nodup) (h2 : l2.Nodup) (h : l1.toFinset = l2.toFinset) :
    List.insertionSort pyLeRel l1 = List.insertionSort pyLeRel l2 :=
  List.eq_of_perm_of_sorted
    (((List.perm_insertionSort pyLeRel l1).trans
        (List.perm_of_nodup_nodup_toFinset_eq h1 h2 h)).trans
      (List.perm_insertionSort pyLeRel l2).symm)
    (List.sorted_insertionSort pyLeRel l1)
    (List.sorted_insertionSort pyLeRel l2)

lemma dedup_toFinset (l : List String) : l.dedup.toFinset = l.toFinset :=
  List.toFinset.ext fun _ => List.mem_dedup

lemma filter_toFinset_eq {l1 l2 : List String} (p : String → Bool)
    (h : l1.toFinset = l2.toFinset) :
    (l1.filter p).toFinset = (l2.filter p).toFinset := by
  have hm := List.toFinset.ext_iff.mp h
  apply List.toFinset.ext
  intro x
  simp only [List.mem_filter]
  rw [hm x]

/-- The set of names a traversal accumulates does not depend on the choice
of `list(set(...))` representative, as long as that choice preserves the
element set. -/
lemma loopWith_names_toFinset (d1 d2 : List String → List String)
    (hd1 : ∀ xs, (d1 xs).toFinset = xs.toFinset)
    (hd2 : ∀ xs, (d2 xs).toFinset = xs.toFinset)
    (fetch : String → Option Page) (base : String) :
    ∀ (remaining pageNum : Nat) (url : Option String) (acc1 acc2 f : List String),
      acc1.toFinset = acc2.toFinset →
      (scrapeLetterLoopWith d1 fetch base remaining pageNum url acc1 f).names.toFinset
        = (scrapeLetterLoopWith d2 fetch base remaining pageNum url acc2 f).names.toFinset := by
  intro remaining
  induction remaining with
  | zero =>
    intro pageNum url acc1 acc2 f hacc
    cases url with
    | none => simpa [scrapeLetterLoopWith] using hacc
    | some u =>
      cases hf : fetch u with
      | none => simpa [scrapeLetterLoopWith, hf] using hacc
      | some soup =>
        by_cases hpn : pageNum + 1 > 50 <;>
          simp [scrapeLetterLoopWith, hf, hpn, extractWith, List.toFinset_append,
            hd1, hd2, hacc]
  | succ r ih =>
    intro pageNum url acc1 acc2 f hacc
    cases url with
    | none => simpa [scrapeLetterLoopWith] using hacc
    | some u =>
      cases hf : fetch u with
      | none => simpa [scrapeLetterLoopWith, hf] using hacc
      | some soup =>
        by_cases hpn : pageNum + 1 > 50
        · simp [scrapeLetterLoopWith, hf, hpn, extractWith, List.toFinset_append,
            hd1, hd2, hacc]
        · rw [scrapeLetterLoopWith, scrapeLetterLoopWith]
          simp only [hf, if_neg hpn]
          exact ih (pageNum + 1) _ _ _ _
            (by simp [extractWith, List.toFinset_append, hd1, hd2, hacc])

/-- The set of names the orchestrator's per-entry-point fold accumulates
does not depend on the `list(set(...))` choice. -/
lemma foldWith_toFinset (d1 d2 : List String → List String)
    (hd1 : ∀ xs, (d1 xs).toFinset = xs.toFinset)
    (hd2 : ∀ xs, (d2 xs).toFinset = xs.toFinset)
    (fetch : String → Option Page) (base : String) :
    ∀ (links acc1 acc2 : List String),
      acc1.toFinset = acc2.toFinset →
      (links.foldl (fun acc link =>
          acc ++ (scrape_letter_pageWith d1 fetch base link).names) acc1).toFinset
        = (links.foldl (fun acc link =>
            acc ++ (scrape_letter_pageWith d2 fetch base link).names) acc2).toFinset := by
  intro links
  induction links with
  | nil => intro acc1 acc2 hacc; simpa using hacc
  | cons l t ih =>
    intro acc1 acc2 hacc
    simp only [List.foldl_cons]
    apply ih
    simp only [List.toFinset_append, hacc]
    congr 1
    exact loopWith_names_toFinset d1 d2 hd1 hd2 fetch base 50 1 (some l) [] [] [] rfl

/-- C10: the persisted sorted output is a deterministic function of the
fetched page contents — although the intermediate `list(set(...))`
conversions may emit the distinct names in any order, any two
set-semantics-preserving choices (duplicate-free output with the same
element set as the input) yield identical output rows in identical
order. -/
theorem csv_output_independent_of_set_order
    (d1 d2 : List String → List String)
    (h1 : ∀ xs, (d1 xs).Nodup ∧ (d1 xs).toFinset = xs.toFinset)
    (h2 : ∀ xs, (d2 xs).Nodup ∧ (d2 xs).toFinset = xs.toFinset)
    (fetch : String → Option Page) (base : String) :
    save_to_csv (scrape_communitiesWith d1 fetch base).communities
      = save_to_csv (scrape_communitiesWith d2 fetch base).communities := by
  have hd1 : ∀ xs, (d1 xs).toFinset = xs.toFinset := fun xs => (h1 xs).2
  have hd2 : ∀ xs, (d2 xs).toFinset = xs.toFinset := fun xs => (h2 xs).2
  unfold save_to_csv
  congr 1
  unfold scrape_communitiesWith
  cases hf : fetch base with
  | none => rfl
  | some soup =>
    by_cases hidx : (find_index_letter_links base soup).isEmpty = true
    · simp only [hidx, if_true]
      exact insertionSort_eq_of_nodup_toFinset (h1 _).1 (h2 _).1
        (by simp only [extractWith, hd1, hd2])
    · simp only [hidx, Bool.false_eq_true, if_false]
      refine insertionSort_eq_of_nodup_toFinset ((h1 _).1.filter _) ((h2 _).1.filter _) ?_
      apply filter_toFinset_eq
      rw [hd1, hd2]
      exact foldWith_toFinset d1 d2 hd1 hd2 fetch base _ [] [] rfl

/-- A landing page carrying two directly extractable names, for the C10
witness run. -/
def setOrderPage : Page :=
  { elems :=
      [ { tag := "a", classes := ["typoSectionTitleFont"], href := some "/c/7",
          title := none, text := "Gamma Group" },
        { tag := "a", classes := ["typoSectionTitleFont"], href := some "/c/8",
          title := none, text := "Delta Crew" } ],
    listContainer := none, indexContainer := none }

/-- The web of the C10 witness. -/
def setOrderFetch : String → Option Page := fun url =>
  if url == "http://w.com/" then some setOrderPage else none

/-- Witness for C10: the canonical dedup and the reversed dedup both
preserve set semantics, and the two runs persist identical rows. -/
theorem csv_output_independent_of_set_order_witness :
    (∀ xs : List String, (pyListSet xs).Nodup ∧ (pyListSet xs).toFinset = xs.toFinset) ∧
    (∀ xs : List String,
      ((fun ys : List String => ys.dedup.reverse) xs).Nodup ∧
        ((fun ys : List String => ys.dedup.reverse) xs).toFinset = xs.toFinset) ∧
    save_to_csv (scrape_communitiesWith pyListSet setOrderFetch "http://w.com/").communities
      = save_to_csv (scrape_communitiesWith (fun ys => ys.dedup.reverse) setOrderFetch
          "http://w.com/").communities :=
  ⟨fun xs => ⟨List.nodup_dedup xs, dedup_toFinset xs⟩,
   fun xs => ⟨List.nodup_reverse.mpr (List.nodup_dedup xs),
     List.toFinset_reverse.trans (dedup_toFinset xs)⟩,
   csv_output_independent_of_set_order pyListSet (fun ys => ys.dedup.reverse)
     (fun xs => ⟨List.nodup_dedup xs, dedup_toFinset xs⟩)
     (fun xs => ⟨List.nodup_reverse.mpr (List.nodup_dedup xs),
       List.toFinset_reverse.trans (dedup_toFinset xs)⟩)
     setOrderFetch "http://w.com/"⟩

/-- Page 1 of the C4 witness chain: one name and a next link to page 2. -/
def chainPage1 : Page :=
  { elems :=
      [ { tag := "a", classes := ["typoSectionTitleFont"], href := some "/c/11",
          title := none, text := "First Page Name" },
        { tag := "a", classes := ["paginationSeparator"], href := some "http://x/2",
          title := none, text := "next >" } ],
    listContainer := none, indexContainer := none }

/-- Page 2 of the C4 witness chain: one name and a next link to page 3. -/
def chainPage2 : Page :=
  { elems :=
      [ { tag := "a", classes := ["typoSectionTitleFont"], href := some "/c/12",
          title := none, text := "Second Page Name" },
        { tag := "a", classes := ["paginationSeparator"], href := some "http://x/3",
          title := none, text := "next >" } ],
    listContainer := none, indexContainer := none }

/-- Page 4 of the C4 witness chain (never reached). -/
def chainPage4 : Page :=
  { elems :=
      [ { tag := "a", classes := ["typoSectionTitleFont"], href := some "/c/14",
          title := none, text := "Fourth Page Name" } ],
    listContainer := none, indexContainer := none }

/-- Page 5 of the C4 witness chain (never reached). -/
def chainPage5 : Page :=
  { elems :=
      [ { tag := "a", classes := ["typoSectionTitleFont"], href := some "/c/15",
          title := none, text := "Fifth Page Name" } ],
    listContainer := none, indexContainer := none }

/-- The web of the C4 witness: a five-page chain whose third page fails. -/
def chainFetch : String → Option Page := fun u =>
  if u = "http://x/1" then some chainPage1
  else if u = "http://x/2" then some chainPage2
  else if u = "http://x/3" then none
  else if u = "http://x/4" then some chainPage4
  else if u = "http://x/5" then some chainPage5
  else none

/-- The URL sequence of the C4 witness chain: its third URL (chain
position 2) is the failing one. -/
def chainUrls : Nat → String := fun i =>
  if i = 0 then "http://x/1" else if i = 1 then "http://x/2" else "http://x/3"

/-- The page sequence of the C4 witness chain. -/
def chainPages : Nat → Page := fun i =>
  if i = 0 then chainPage1 else chainPage2

/-- Witness for C4 on the concrete five-page chain whose page 3 (chain
position 2) fails to fetch. -/
theorem letter_traversal_partial_failure_witness :
    (∀ i, i < 2 → chainFetch (chainUrls i) = some (chainPages i)) ∧
    (∀ i, i + 1 ≤ 2 →
      findNextPage "http://x/" (chainPages i) = some (chainUrls (i + 1))) ∧
    chainFetch (chainUrls 2) = none ∧
    ((scrape_letter_page chainFetch "http://x/" (chainUrls 0)).names
        = (List.range 2).flatMap (fun i => extract_communities_from_page (chainPages i)) ∧
      (scrape_letter_page chainFetch "http://x/" (chainUrls 0)).fetchedUrls
        = (List.range 2).map chainUrls) :=
  ⟨fun i hi => by
      rcases i with _ | _ | i
      · decide
      · decide
      · omega,
   fun i hi => by
      rcases i with _ | _ | i
      · decide
      · decide
      · omega,
   by decide,
   letter_traversal_partial_failure chainFetch "http://x/" chainUrls chainPages 2
     (by omega)
     (fun i hi => by
        rcases i with _ | _ | i
        · decide
        · decide
        · omega)
     (fun i hi => by
        rcases i with _ | _ | i
        · decide
        · decide
        · omega)
     (by decide)⟩
